import Mathlib

/-!
A shallow embedding of the PickIt session-coordination engine from
`src/src/PickItApp.jsx`.

The app stores three kinds of Firestore documents: session records (keyed by
the session id), participant records (keyed by `sessionId + "_" + userId`) and
vote records (keyed by `sessionId + "_" + userId + "_" + restaurantId`).  The
engine operations are the client functions `createSession`, `joinSession`,
`submitPreference`, `startVoting`, `endVoting` and the `onVote` handler.

Modelling conventions:
* A Firestore collection is a list of `(docId, record)` pairs; `setDoc`
  replaces the record at an existing doc id or appends a fresh document,
  `deleteDoc` removes the documents with a given id.  The list order stands in
  for the order in which a collection query delivers its documents.
* The session collection is modelled as a function from ids to optional
  records, since no operation queries it; `updateDoc` on a missing session
  document throws, which is modelled by returning `none`.
* Operations that throw (candidate lookup on an empty list, `updateDoc` on a
  missing document, writing an `undefined` winner) return `none`; the early
  `if (!user || !sessionId) return;` guards are modelled as no-ops on the
  falsy (empty-string) inputs, exactly as in the source.
* The JS object used as the tally accumulator is modelled as an
  insertion-ordered association list, which is V8's iteration order for the
  non-numeric string keys (restaurant ids) used here.
-/

/-- A restaurant candidate.  Only the identity and display name are kept; the
remaining display fields (image, rating, price, cuisine, address) are opaque
to the coordination logic and are elided. -/
structure Candidate where
  id : String
  name : String
deriving DecidableEq

/-- A participant document `{ sessionId, userId, name, preference, isHost }`
as written by `createSession`, `joinSession` and `submitPreference`. -/
structure Participant where
  sessionId : String
  userId : String
  name : String
  preference : String
  isHost : Bool
deriving DecidableEq

/-- A vote document `{ sessionId, userId, restaurantId }` as written by the
`onVote` handler. -/
structure VoteRec where
  sessionId : String
  userId : String
  restaurantId : String
deriving DecidableEq

/-- A session document.  `status` is the string field
`'open' | 'voting' | 'finished'`; the `createdAt` server timestamp is elided.
`winner` is absent (`none`) until `endVoting` writes it. -/
structure Session where
  hostId : String
  location : String
  status : String
  candidates : List Candidate
  winner : Option Candidate
deriving DecidableEq

/-- Lookup of a document by id (`getDoc`). -/
def storeGet {α : Type} : List (String × α) → String → Option α
  | [], _ => none
  | (k', v) :: rest, k => if k' = k then some v else storeGet rest k

/-- `setDoc`: replace the document at an existing id, or append a fresh one. -/
def storeSet {α : Type} : List (String × α) → String → α → List (String × α)
  | [], k, v => [(k, v)]
  | (k', v') :: rest, k, v =>
      if k' = k then (k, v) :: rest else (k', v') :: storeSet rest k v

/-- `deleteDoc`: remove the documents with the given id. -/
def storeDelete {α : Type} : List (String × α) → String → List (String × α)
  | [], _ => []
  | (k', v) :: rest, k =>
      if k' = k then storeDelete rest k else (k', v) :: storeDelete rest k

/-- The shared Firestore state visible to the engine. -/
structure World where
  sessions : String → Option Session
  participants : List (String × Participant)
  votes : List (String × VoteRec)

/-- The empty store. -/
def initWorld : World := { sessions := fun _ => none, participants := [], votes := [] }

/-- Overwrite the session record stored under `sid`. -/
def setSession (w : World) (sid : String) (s : Session) : World :=
  { w with sessions := fun k => if k = sid then some s else w.sessions k }

/-- Participant doc id: `` `${sessionId}_${user.uid}` ``. -/
def participantDocId (sid user : String) : String := sid ++ "_" ++ user

/-- Vote doc id: `` `${sessionId}_${user.uid}_${rid}` ``. -/
def voteDocId (sid user rid : String) : String := sid ++ "_" ++ user ++ "_" ++ rid

/-- The `participants` snapshot: documents whose `sessionId` field matches. -/
def participantsOf (w : World) (sid : String) : List Participant :=
  (w.participants.filter (fun kv => kv.2.sessionId == sid)).map Prod.snd

/-- The `votes` snapshot: documents whose `sessionId` field matches. -/
def votesOf (w : World) (sid : String) : List VoteRec :=
  (w.votes.filter (fun kv => kv.2.sessionId == sid)).map Prod.snd

/-- Number of votes for restaurant `r`, i.e. the value `counts[r]` ends with. -/
def countVotes (r : String) (votes : List VoteRec) : Nat :=
  (votes.filter (fun v => v.restaurantId == r)).length

/-- One step of `counts[v.restaurantId] = (counts[v.restaurantId] || 0) + 1`:
increment the entry for `r` in place, or append a fresh `(r, 1)` entry. -/
def insertTally : List (String × Nat) → String → List (String × Nat)
  | [], r => [(r, 1)]
  | (k, c) :: rest, r =>
      if k = r then (k, c + 1) :: rest else (k, c) :: insertTally rest r

/-- The `counts` accumulator built by `votes.forEach(...)` in `endVoting`,
as the insertion-ordered association list that `Object.entries` iterates. -/
def tallyList (votes : List VoteRec) : List (String × Nat) :=
  votes.foldl (fun acc v => insertTally acc v.restaurantId) []

/-- One iteration of the winner scan: `if (count > maxV) { maxV = count; winnerId = rid; }`. -/
def pickWinnerStep (acc : Option String × Int) (e : String × Nat) : Option String × Int :=
  if acc.2 < (e.2 : Int) then (some e.1, (e.2 : Int)) else acc

/-- The winner scan over `Object.entries(counts)`, starting from
`winnerId = null; maxV = -1`. -/
def pickWinner (entries : List (String × Nat)) : Option String × Int :=
  entries.foldl pickWinnerStep (none, -1)

/-- The `winnerId` computed by `endVoting`; `none` means the computation threw
(reading `candidates[0].id` of an empty list).  The `if (!winnerId)` check
treats both `null` and the empty string as falsy. -/
def computeWinnerId (cands : List Candidate) (votes : List VoteRec) : Option String :=
  if votes.isEmpty then (cands.head?).map Candidate.id
  else
    match (pickWinner (tallyList votes)).1 with
    | none => (cands.head?).map Candidate.id
    | some r => if r = "" then (cands.head?).map Candidate.id else some r

/-- The winner record chosen by `endVoting`:
`sessionData.candidates.find(c => c.id === winnerId) || sessionData.candidates[0]`.
`none` means `endVoting` threw before (or while) writing the winner. -/
def endVotingWinner (cands : List Candidate) (votes : List VoteRec) : Option Candidate :=
  match computeWinnerId cands votes with
  | none => none
  | some wid =>
    match cands.find? (fun c => c.id == wid) with
    | some wc => some wc
    | none => cands.head?

/-- The distinct restaurant ids of a vote list, in order of first occurrence:
the key order of the tally object. -/
def firstOcc : List VoteRec → List String
  | [] => []
  | v :: vs => v.restaurantId :: (firstOcc vs).filter (fun r => r != v.restaurantId)

/-- The greatest per-candidate vote count. -/
def maxCount (votes : List VoteRec) : Nat :=
  ((firstOcc votes).map (fun r => countVotes r votes)).foldr max 0

/-- Modelled from the spec: the winner id described by the resolution rule —
among the candidates sharing the maximum count, the one that first received
any vote (first in the iteration order of the tally mapping). -/
def resolveSpecWinnerId (votes : List VoteRec) : Option String :=
  (firstOcc votes).find? (fun r => countVotes r votes == maxCount votes)

/-- The greatest count stored in a tally list. -/
def listMax (entries : List (String × Nat)) : Nat :=
  entries.foldr (fun e m => max e.2 m) 0

/-- The five mock restaurants used as the sourcing fallback (display fields
beyond the name elided). -/
def MOCK_RESTAURANTS : List Candidate :=
  [⟨"r1", "Che Butter Jonez (Mock)"⟩, ⟨"r2", "NFA Burger - Dunwoody"⟩,
   ⟨"r3", "Wheelhouse Craft Pub"⟩, ⟨"r4", "Atlanta Breakfast Club"⟩,
   ⟨"r5", "Whiskey Bird"⟩]

/-- `createSession(hostName, location)` invoked by `user` with the generated
id `sid`: writes the session record (status `open`, empty candidates) and the
host's participant record.  `setDoc` on the session overwrites a colliding id. -/
def createSession (w : World) (user sid hostName location : String) : World :=
  if user = "" then w
  else
    let sessionRec : Session :=
      { hostId := user, location := location, status := "open",
        candidates := [], winner := none }
    let hostRec : Participant :=
      { sessionId := sid, userId := user, name := hostName,
        preference := "", isHost := true }
    let w1 := setSession w sid sessionRec
    { w1 with participants := storeSet w1.participants (participantDocId sid user) hostRec }

/-- `joinSession(participantName, sid)` invoked by `user`: a plain `setDoc`
that writes a fresh participant record (empty preference, `isHost: false`). -/
def joinSession (w : World) (user name sid : String) : World :=
  if user = "" then w
  else
    let rec0 : Participant :=
      { sessionId := sid, userId := user, name := name,
        preference := "", isHost := false }
    { w with participants := storeSet w.participants (participantDocId sid user) rec0 }

/-- `submitPreference(prefText)` invoked by `user` in session `sid`: re-writes
the participant record with the new preference, keeping the name
(`currentPart?.name || 'User'`) and host flag (`currentPart?.isHost || false`)
found in the synced participant list. -/
def submitPreference (w : World) (user sid text : String) : World :=
  if user = "" ∨ sid = "" then w
  else
    let currentPart := (participantsOf w sid).find? (fun p => p.userId == user)
    let newName := match currentPart with
      | some p => if p.name = "" then "User" else p.name
      | none => "User"
    let newIsHost := match currentPart with
      | some p => p.isHost
      | none => false
    let rec0 : Participant :=
      { sessionId := sid, userId := user, name := newName,
        preference := text, isHost := newIsHost }
    { w with participants := storeSet w.participants (participantDocId sid user) rec0 }

/-- `startVoting()` invoked by `user` in session `sid`.  `fetched` is the
Yelp result (`none` models a failed fetch); on `null` or an empty result the
shuffled mock list is cut to 5 and used instead.  The `updateDoc` sets
`status: 'voting'` and the candidate list; it throws (`none`) when the
session document does not exist.  There is no host check and no phase check.
`selectedCandidates` is the local `selected` list: the Yelp result if it is
non-null and non-empty, otherwise the shuffled mocks cut to 5. -/
def selectedCandidates (fetched : Option (List Candidate))
    (mockShuffled : List Candidate) : List Candidate :=
  match fetched with
  | some l => if l.isEmpty then mockShuffled.take 5 else l
  | none => mockShuffled.take 5

/-- The `updateDoc` write of `startVoting`; see `selectedCandidates`. -/
def startVoting (w : World) (user sid : String) (fetched : Option (List Candidate))
    (mockShuffled : List Candidate) : Option World :=
  if user = "" ∨ sid = "" then some w
  else
    match w.sessions sid with
    | none => none
    | some s =>
      let selected := selectedCandidates fetched mockShuffled
      some (setSession w sid { s with status := "voting", candidates := selected })

/-- `endVoting()` invoked by `user` in session `sid`: computes the winner from
the synced vote list and sets `status: 'finished'` and `winner`.  It is a
no-op when the synced session data is absent, and throws (`none`) when the
winner computation reads `candidates[0]` of an empty list or the winner is
undefined.  There is no host check and no phase check. -/
def endVoting (w : World) (user sid : String) : Option World :=
  if user = "" ∨ sid = "" then some w
  else
    match w.sessions sid with
    | none => some w
    | some s =>
      match endVotingWinner s.candidates (votesOf w sid) with
      | none => none
      | some win =>
        some (setSession w sid { s with status := "finished", winner := some win })

/-- The `onVote` handler for `user` tapping restaurant `rid` in session `sid`:
if the synced vote list holds a vote by this user for this restaurant the
document at `voteDocId` is deleted, otherwise one is created there.  The
string records which branch ran (`deleteDoc` = "removed", `setDoc` = "added"),
the action the spec's `ToggleVote` reports. -/
def onVote (w : World) (user sid rid : String) : String × World :=
  let existing := (votesOf w sid).find? (fun v => v.userId == user && v.restaurantId == rid)
  let rec0 : VoteRec := { sessionId := sid, userId := user, restaurantId := rid }
  match existing with
  | some _ => ("removed", { w with votes := storeDelete w.votes (voteDocId sid user rid) })
  | none => ("added", { w with votes := storeSet w.votes (voteDocId sid user rid) rec0 })

/-- The store produced by the `setDoc` branch of `onVote`. -/
def voteWrite (w : World) (user sid rid : String) : World :=
  { w with votes := storeSet w.votes (voteDocId sid user rid) ⟨sid, user, rid⟩ }

/-- Base-36 digit as printed by `Number.prototype.toString(36)`:
`0`–`9` then `a`–`z`. -/
def digitChar (d : Fin 36) : Char :=
  if d.val < 10 then Char.ofNat (48 + d.val) else Char.ofNat (87 + d.val)

/-- Canonicalize a fractional base-36 expansion: the printed expansion of a
double never carries trailing zero digits. -/
def trimTrailingZeros (ds : List (Fin 36)) : List (Fin 36) :=
  ((ds.reverse).dropWhile (fun d => d.val == 0)).reverse

/-- `String.prototype.toUpperCase` on the characters produced here: map
`a`–`z` to `A`–`Z`. -/
def jsToUpperChar (c : Char) : Char :=
  if 97 ≤ c.toNat ∧ c.toNat ≤ 122 then Char.ofNat (c.toNat - 32) else c

/-- `Math.random().toString(36)` for a random value whose fractional base-36
digits are `ds`: `"0"` when the value is zero, otherwise `"0."` followed by
the digits (as a character list). -/
def randomToStringBase36 (ds : List (Fin 36)) : List Char :=
  let t := trimTrailingZeros ds
  if t.isEmpty then ['0'] else '0' :: '.' :: t.map digitChar

/-- `generateSessionId`: `Math.random().toString(36).substring(2, 8).toUpperCase()`,
`substring(2, 8)` being "drop 2 characters, take at most 6". -/
def generateSessionId (ds : List (Fin 36)) : List Char :=
  (((randomToStringBase36 ds).drop 2).take 6).map jsToUpperChar

/-- A digit `0`–`9` or an uppercase letter `A`–`Z`. -/
def isUpperAlnum (c : Char) : Bool :=
  (48 ≤ c.toNat && c.toNat ≤ 57) || (65 ≤ c.toNat && c.toNat ≤ 90)

/-- One engine operation applied to the shared store, with exactly the
side conditions under which the source performs its writes.  `mockShuffled`
is the shuffled copy of `MOCK_RESTAURANTS` used by the sourcing fallback. -/
inductive Step : World → World → Prop
  | create (w : World) (user sid hostName location : String) :
      Step w (createSession w user sid hostName location)
  | join (w : World) (user name sid : String) :
      Step w (joinSession w user name sid)
  | submitPref (w : World) (user sid text : String) :
      Step w (submitPreference w user sid text)
  | vote (w : World) (user sid rid : String) :
      Step w (onVote w user sid rid).2
  | startVote (w : World) (user sid : String) (fetched : Option (List Candidate))
      (mockShuffled : List Candidate) (w' : World)
      (hperm : mockShuffled.Perm MOCK_RESTAURANTS)
      (h : startVoting w user sid fetched mockShuffled = some w') :
      Step w w'
  | endVote (w : World) (user sid : String) (w' : World)
      (h : endVoting w user sid = some w') :
      Step w w'

/-- Stores reachable from the empty store by engine operations. -/
def Reachable (w : World) : Prop := Relation.ReflTransGen Step initWorld w

/-- Engine operations restricted to their intended phase: `createSession`
only with a fresh id, `startVoting` only on a session still in status
`open`. -/
inductive StepG : World → World → Prop
  | create (w : World) (user sid hostName location : String)
      (hfresh : w.sessions sid = none) :
      StepG w (createSession w user sid hostName location)
  | join (w : World) (user name sid : String) :
      StepG w (joinSession w user name sid)
  | submitPref (w : World) (user sid text : String) :
      StepG w (submitPreference w user sid text)
  | vote (w : World) (user sid rid : String) :
      StepG w (onVote w user sid rid).2
  | startVote (w : World) (user sid : String) (fetched : Option (List Candidate))
      (mockShuffled : List Candidate) (w' : World) (s : Session)
      (hperm : mockShuffled.Perm MOCK_RESTAURANTS)
      (hopen : w.sessions sid = some s) (hst : s.status = "open")
      (h : startVoting w user sid fetched mockShuffled = some w') :
      StepG w w'
  | endVote (w : World) (user sid : String) (w' : World)
      (h : endVoting w user sid = some w') :
      StepG w w'

/-- Stores reachable from the empty store by phase-respecting operations. -/
def ReachableG (w : World) : Prop := Relation.ReflTransGen StepG initWorld w

/-- Position of a status in the lifecycle `open → voting → finished`. -/
def statusRank (st : String) : Nat :=
  if st = "open" then 0 else if st = "voting" then 1
  else if st = "finished" then 2 else 3

/-! ### Store lemmas -/

theorem storeGet_set_self {α : Type} (l : List (String × α)) (k : String) (v : α) :
    storeGet (storeSet l k v) k = some v := by
  induction l with
  | nil => simp [storeSet, storeGet]
  | cons kv rest ih =>
    obtain ⟨k', v'⟩ := kv
    by_cases h : k' = k
    · simp [storeSet, storeGet, h]
    · simp [storeSet, storeGet, h, ih]

theorem storeGet_set_ne {α : Type} (l : List (String × α)) (k k' : String) (v : α)
    (h : k' ≠ k) : storeGet (storeSet l k v) k' = storeGet l k' := by
  induction l with
  | nil => simp [storeSet, storeGet, h, Ne.symm h]
  | cons kv rest ih =>
    obtain ⟨k₀, v₀⟩ := kv
    by_cases h₀ : k₀ = k
    · subst h₀
      simp [storeSet, storeGet, Ne.symm h]
    · by_cases h₁ : k₀ = k'
      · simp [storeSet, storeGet, h₀, h₁, h]
      · simp [storeSet, storeGet, h₀, h₁, ih]

theorem storeGet_delete_ne {α : Type} (l : List (String × α)) (k k' : String)
    (h : k' ≠ k) : storeGet (storeDelete l k) k' = storeGet l k' := by
  induction l with
  | nil => simp [storeDelete]
  | cons kv rest ih =>
    obtain ⟨k₀, v₀⟩ := kv
    by_cases h₀ : k₀ = k
    · subst h₀
      simp [storeDelete, storeGet, Ne.symm h, ih]
    · by_cases h₁ : k₀ = k'
      · simp [storeDelete, storeGet, h₀, h₁, h]
      · simp [storeDelete, storeGet, h₀, h₁, ih]

theorem storeSet_of_get_none {α : Type} (l : List (String × α)) (k : String) (v : α)
    (h : storeGet l k = none) : storeSet l k v = l ++ [(k, v)] := by
  induction l with
  | nil => simp [storeSet]
  | cons kv rest ih =>
    obtain ⟨k₀, v₀⟩ := kv
    by_cases h₀ : k₀ = k
    · simp [storeGet, h₀] at h
    · simp [storeGet, h₀] at h
      simp [storeSet, h₀, ih h]

theorem storeDelete_append_self_of_get_none {α : Type} (l : List (String × α))
    (k : String) (v : α) (h : storeGet l k = none) :
    storeDelete (l ++ [(k, v)]) k = l := by
  induction l with
  | nil => simp [storeDelete]
  | cons kv rest ih =>
    obtain ⟨k₀, v₀⟩ := kv
    by_cases h₀ : k₀ = k
    · simp [storeGet, h₀] at h
    · simp [storeGet, h₀] at h
      simp [storeDelete, h₀, ih h]

/-! ### Winner-computation lemmas -/

theorem endVotingWinner_mem (cands : List Candidate) (votes : List VoteRec)
    (w : Candidate) (h : endVotingWinner cands votes = some w) : w ∈ cands := by
  unfold endVotingWinner at h
  split at h
  · simp at h
  · split at h
    · rename_i wc hf
      cases h
      exact List.mem_of_find?_eq_some hf
    · exact List.mem_of_mem_head? h

theorem endVotingWinner_nil (votes : List VoteRec) :
    endVotingWinner [] votes = none := by
  rcases h : endVotingWinner [] votes with _ | w
  · rfl
  · exact absurd (endVotingWinner_mem [] votes w h) (by simp)

theorem endVotingWinner_empty_votes (c : Candidate) (rest : List Candidate) :
    endVotingWinner (c :: rest) [] = some c := by
  simp [endVotingWinner, computeWinnerId, List.find?]

/-! ### Tally characterization -/

theorem mem_firstOcc (vs : List VoteRec) (r : String) :
    r ∈ firstOcc vs ↔ ∃ v ∈ vs, v.restaurantId = r := by
  induction vs with
  | nil => simp [firstOcc]
  | cons v t ih =>
    simp only [firstOcc, List.mem_cons, List.mem_filter, ih, bne_iff_ne, ne_eq]
    constructor
    · rintro (rfl | ⟨⟨u, hu, he⟩, _⟩)
      · exact ⟨v, Or.inl rfl, rfl⟩
      · exact ⟨u, Or.inr hu, he⟩
    · rintro ⟨u, (rfl | hu), he⟩
      · exact Or.inl he.symm
      · by_cases hr : r = v.restaurantId
        · exact Or.inl hr
        · exact Or.inr ⟨⟨u, hu, he⟩, hr⟩

theorem firstOcc_nodup (vs : List VoteRec) : (firstOcc vs).Nodup := by
  induction vs with
  | nil => simp [firstOcc]
  | cons v t ih =>
    simp only [firstOcc, List.nodup_cons]
    refine ⟨fun hmem => ?_, ih.filter _⟩
    have h2 := (List.mem_filter.mp hmem).2
    simp at h2

theorem countVotes_concat (r : String) (vs : List VoteRec) (v : VoteRec) :
    countVotes r (vs ++ [v]) =
      countVotes r vs + (if v.restaurantId = r then 1 else 0) := by
  by_cases h : v.restaurantId = r
  · simp [countVotes, List.filter_append, h]
  · simp [countVotes, List.filter_append, h]

theorem countVotes_eq_zero (r : String) (vs : List VoteRec)
    (h : ∀ v ∈ vs, v.restaurantId ≠ r) : countVotes r vs = 0 := by
  unfold countVotes
  rw [List.length_eq_zero]
  rw [List.filter_eq_nil_iff]
  intro v hv
  simp [h v hv]

theorem firstOcc_concat (vs : List VoteRec) (v : VoteRec) :
    firstOcc (vs ++ [v]) =
      if ∃ u ∈ vs, u.restaurantId = v.restaurantId then firstOcc vs
      else firstOcc vs ++ [v.restaurantId] := by
  induction vs with
  | nil => simp [firstOcc]
  | cons u t ih =>
    have lhs : firstOcc ((u :: t) ++ [v]) =
        u.restaurantId :: (firstOcc (t ++ [v])).filter (fun r => r != u.restaurantId) := rfl
    rw [lhs, ih]
    by_cases hv : ∃ x ∈ t, x.restaurantId = v.restaurantId
    · rw [if_pos hv, if_pos ?_]
      · rfl
      · obtain ⟨x, hx, he⟩ := hv
        exact ⟨x, List.mem_cons_of_mem _ hx, he⟩
    · rw [if_neg hv, List.filter_append]
      by_cases he : v.restaurantId = u.restaurantId
      · have h1 : ([v.restaurantId].filter (fun r => r != u.restaurantId)) = [] := by
          simp [he]
        rw [h1, List.append_nil,
          if_pos ⟨u, List.mem_cons_self u t, he.symm⟩]
        rfl
      · have h1 : ([v.restaurantId].filter (fun r => r != u.restaurantId)) =
            [v.restaurantId] := by simp [he]
        rw [h1, if_neg ?_]
        · show u.restaurantId :: ((firstOcc t).filter _ ++ [v.restaurantId]) =
            (u.restaurantId :: (firstOcc t).filter _) ++ [v.restaurantId]
          simp
        · rintro ⟨x, hx, hxe⟩
          rcases List.mem_cons.mp hx with rfl | hx'
          · exact he hxe.symm
          · exact hv ⟨x, hx', hxe⟩

theorem insertTally_map (l : List String) (f : String → Nat) (r : String)
    (hnd : l.Nodup) :
    insertTally (l.map (fun k => (k, f k))) r =
      if r ∈ l then l.map (fun k => (k, if k = r then f k + 1 else f k))
      else l.map (fun k => (k, f k)) ++ [(r, 1)] := by
  induction l with
  | nil => simp [insertTally]
  | cons k₀ t ih =>
    obtain ⟨hk₀, hndt⟩ := List.nodup_cons.mp hnd
    by_cases hk : k₀ = r
    · subst hk
      have h1 : insertTally ((k₀ :: t).map (fun k => (k, f k))) k₀ =
          (k₀, f k₀ + 1) :: t.map (fun k => (k, f k)) := by
        simp [insertTally]
      rw [h1, if_pos (List.mem_cons_self _ _), List.map_cons, if_pos rfl]
      congr 1
      apply List.map_eq_map_iff.mpr
      intro x hx
      have hxk : ¬x = k₀ := fun hh => hk₀ (hh ▸ hx)
      simp [hxk]
    · have h1 : insertTally ((k₀ :: t).map (fun k => (k, f k))) r =
          (k₀, f k₀) :: insertTally (t.map (fun k => (k, f k))) r := by
        simp [insertTally, hk]
      rw [h1, ih hndt]
      by_cases hm : r ∈ t
      · rw [if_pos hm, if_pos (List.mem_cons_of_mem _ hm), List.map_cons, if_neg hk]
      · rw [if_neg hm, if_neg ?_, List.map_cons]
        · rfl
        · intro hmem
          rcases List.mem_cons.mp hmem with rfl | h
          · exact hk rfl
          · exact hm h

theorem tallyList_concat (vs : List VoteRec) (v : VoteRec) :
    tallyList (vs ++ [v]) = insertTally (tallyList vs) v.restaurantId := by
  simp [tallyList, List.foldl_append]

theorem tallyList_eq (vs : List VoteRec) :
    tallyList vs = (firstOcc vs).map (fun r => (r, countVotes r vs)) := by
  induction vs using List.reverseRecOn with
  | nil => simp [tallyList, firstOcc]
  | append_singleton vs v ih =>
    rw [tallyList_concat, ih, insertTally_map _ _ _ (firstOcc_nodup vs),
      firstOcc_concat]
    by_cases hv : ∃ u ∈ vs, u.restaurantId = v.restaurantId
    · have hmem : v.restaurantId ∈ firstOcc vs := (mem_firstOcc vs _).mpr hv
      rw [if_pos hmem, if_pos hv]
      apply List.map_eq_map_iff.mpr
      intro r hr
      rw [countVotes_concat]
      by_cases hr' : r = v.restaurantId
      · subst hr'
        simp
      · have : ¬v.restaurantId = r := fun hh => hr' hh.symm
        simp [hr', this]
    · have hmem : v.restaurantId ∉ firstOcc vs := fun hh =>
        hv ((mem_firstOcc vs _).mp hh)
      rw [if_neg hmem, if_neg hv, List.map_append]
      congr 1
      · apply List.map_eq_map_iff.mpr
        intro r hr
        rw [countVotes_concat]
        have : ¬v.restaurantId = r := by
          intro hh
          exact hv (by
            obtain ⟨u, hu, he⟩ := (mem_firstOcc vs r).mp hr
            exact ⟨u, hu, he.trans hh.symm⟩)
        simp [this]
      · have hz : countVotes v.restaurantId vs = 0 :=
          countVotes_eq_zero _ _ (fun u hu he => hv ⟨u, hu, he⟩)
        simp [countVotes_concat, hz]

/-! ### Winner-scan characterization -/

theorem listMax_cons (e : String × Nat) (t : List (String × Nat)) :
    listMax (e :: t) = max e.2 (listMax t) := rfl

theorem le_listMax (entries : List (String × Nat)) (e : String × Nat)
    (h : e ∈ entries) : e.2 ≤ listMax entries := by
  induction entries with
  | nil => cases h
  | cons e₀ t ih =>
    rw [listMax_cons]
    rcases List.mem_cons.mp h with rfl | h'
    · exact Nat.le_max_left _ _
    · exact le_trans (ih h') (Nat.le_max_right _ _)

theorem pickWinner_stay (l : List (String × Nat)) :
    ∀ (k : String) (m : Nat), listMax l ≤ m →
    List.foldl pickWinnerStep ((some k : Option String), (m : Int)) l
      = (some k, (m : Int)) := by
  induction l with
  | nil => intro k m _; rfl
  | cons e t ih =>
    intro k m h
    obtain ⟨k₁, c₁⟩ := e
    rw [listMax_cons] at h
    have h1 : c₁ ≤ m := le_trans (Nat.le_max_left _ _) h
    have h2 : listMax t ≤ m := le_trans (Nat.le_max_right _ _) h
    have hstep : pickWinnerStep (some k, (m : Int)) (k₁, c₁) = (some k, (m : Int)) := by
      unfold pickWinnerStep
      rw [if_neg (by push_cast; omega)]
    rw [List.foldl_cons, hstep]
    exact ih k m h2

theorem pickWinner_find (M : Nat) (l : List (String × Nat)) :
    ∀ (k : String) (m : Nat), listMax l = M → m < M →
    ∃ e, l.find? (fun e => e.2 == M) = some e ∧ e.2 = M ∧
      List.foldl pickWinnerStep ((some k : Option String), (m : Int)) l
        = (some e.1, (M : Int)) := by
  induction l with
  | nil =>
    intro k m hM hm
    exfalso
    simp [listMax] at hM
    omega
  | cons e t ih =>
    intro k m hM hm
    obtain ⟨k₁, c₁⟩ := e
    rw [listMax_cons] at hM
    by_cases hc : c₁ = M
    · refine ⟨(k₁, c₁), ?_, hc, ?_⟩
      · exact List.find?_cons_of_pos _ (by simp [hc])
      · have hstep : pickWinnerStep (some k, (m : Int)) (k₁, c₁)
            = (some k₁, (c₁ : Int)) := by
          unfold pickWinnerStep
          rw [if_pos (by push_cast; omega)]
        rw [List.foldl_cons, hstep]
        have hle : listMax t ≤ c₁ := by
          simp only at hM
          omega
        rw [pickWinner_stay t k₁ c₁ hle, hc]
    · have hsplit : c₁ < M ∧ listMax t = M := by
        simp only at hM
        omega
      have hfind : List.find? (fun e => e.2 == M) ((k₁, c₁) :: t)
          = List.find? (fun e => e.2 == M) t :=
        List.find?_cons_of_neg _ (by simp [hc])
      rw [List.foldl_cons]
      by_cases hmc : m < c₁
      · have hstep : pickWinnerStep (some k, (m : Int)) (k₁, c₁)
            = (some k₁, (c₁ : Int)) := by
          unfold pickWinnerStep
          rw [if_pos (by push_cast; omega)]
        rw [hstep, hfind]
        exact ih k₁ c₁ hsplit.2 hsplit.1
      · have hstep : pickWinnerStep (some k, (m : Int)) (k₁, c₁)
            = (some k, (m : Int)) := by
          unfold pickWinnerStep
          rw [if_neg (by push_cast; omega)]
        rw [hstep, hfind]
        exact ih k m hsplit.2 hm

theorem pickWinner_spec (entries : List (String × Nat)) (hne : entries ≠ []) :
    ∃ e, entries.find? (fun e => e.2 == listMax entries) = some e ∧
      e.2 = listMax entries ∧
      pickWinner entries = (some e.1, (listMax entries : Int)) := by
  obtain ⟨e₀, t, rfl⟩ := List.exists_cons_of_ne_nil hne
  obtain ⟨k₀, c₀⟩ := e₀
  unfold pickWinner
  rw [List.foldl_cons]
  have hstep : pickWinnerStep ((none : Option String), -1) (k₀, c₀)
      = (some k₀, (c₀ : Int)) := by
    unfold pickWinnerStep
    rw [if_pos (by push_cast; omega)]
  rw [hstep]
  obtain ⟨M, hMeq⟩ : ∃ M, listMax ((k₀, c₀) :: t) = M := ⟨_, rfl⟩
  rw [hMeq]
  have hM2 : max c₀ (listMax t) = M := by rw [← hMeq, listMax_cons]
  by_cases hc : c₀ = M
  · refine ⟨(k₀, c₀), ?_, hc, ?_⟩
    · exact List.find?_cons_of_pos _ (by simp only [beq_iff_eq]; exact hc)
    · have hle : listMax t ≤ c₀ := by omega
      rw [pickWinner_stay t k₀ c₀ hle, hc]
  · have h1 : c₀ < M := by omega
    have h2 : listMax t = M := by omega
    obtain ⟨e, he1, he2, he3⟩ := pickWinner_find M t k₀ c₀ h2 h1
    refine ⟨e, ?_, he2, he3⟩
    rw [List.find?_cons_of_neg _ (by simp only [beq_iff_eq]; exact hc)]
    exact he1

theorem listMax_tally (vs : List VoteRec) :
    listMax (tallyList vs) = maxCount vs := by
  rw [tallyList_eq]
  unfold listMax maxCount
  generalize firstOcc vs = l
  induction l with
  | nil => rfl
  | cons r t ih =>
    simp only [List.map_cons, List.foldr_cons]
    rw [ih]

theorem countVotes_le_maxCount (vs : List VoteRec) (r : String)
    (hr : r ∈ firstOcc vs) : countVotes r vs ≤ maxCount vs := by
  have hmem : (r, countVotes r vs) ∈ tallyList vs := by
    rw [tallyList_eq]
    exact List.mem_map_of_mem _ hr
  have h := le_listMax _ _ hmem
  rwa [listMax_tally] at h

theorem endVotingWinner_spec (cands : List Candidate) (votes : List VoteRec)
    (hv : votes ≠ [])
    (hmem : ∀ v ∈ votes, ∃ c ∈ cands, c.id = v.restaurantId)
    (hne : ∀ v ∈ votes, v.restaurantId ≠ "") :
    ∃ w, endVotingWinner cands votes = some w ∧ w ∈ cands ∧
      resolveSpecWinnerId votes = some w.id ∧
      ∀ c ∈ cands, countVotes c.id votes ≤ countVotes w.id votes := by
  have hveb : ¬(votes.isEmpty = true) := by
    simp [List.isEmpty_iff, hv]
  have htne : tallyList votes ≠ [] := by
    rw [tallyList_eq]
    cases votes with
    | nil => exact absurd rfl hv
    | cons v t => simp [firstOcc]
  obtain ⟨e, he1, he2, he3⟩ := pickWinner_spec (tallyList votes) htne
  rw [listMax_tally] at he1 he2 he3
  rw [tallyList_eq, List.find?_map] at he1
  obtain ⟨r, hr1, hr2⟩ := Option.map_eq_some'.mp he1
  have he1' : e.1 = r := by rw [← hr2]
  have hecnt : e.2 = countVotes r votes := by rw [← hr2]
  have hrid : resolveSpecWinnerId votes = some r := hr1
  have hrmem : r ∈ firstOcc votes := List.mem_of_find?_eq_some hr1
  obtain ⟨vr, hvr, hvre⟩ := (mem_firstOcc votes r).mp hrmem
  have hrne : r ≠ "" := hvre ▸ hne vr hvr
  have hpick1 : (pickWinner (tallyList votes)).1 = some r := by
    rw [he3, ← he1']
  have hwid : computeWinnerId cands votes = some r := by
    simp only [computeWinnerId, hveb, if_false, hpick1, if_neg hrne]
    simp
  obtain ⟨cw, hcw, hcwid⟩ := hmem vr hvr
  have hcwr : cw.id = r := hcwid.trans hvre
  obtain ⟨wc, hfind⟩ : ∃ wc, cands.find? (fun c => c.id == r) = some wc := by
    have hsome : (cands.find? (fun c => c.id == r)).isSome :=
      List.find?_isSome.mpr ⟨cw, hcw, by simp [hcwr]⟩
    exact Option.isSome_iff_exists.mp hsome
  have hwcid : wc.id = r := by
    have h := List.find?_some hfind
    simpa using h
  have hwcmem : wc ∈ cands := List.mem_of_find?_eq_some hfind
  have hrcnt : countVotes r votes = maxCount votes := by
    rw [← hecnt]
    exact he2
  refine ⟨wc, ?_, hwcmem, ?_, ?_⟩
  · simp only [endVotingWinner, hwid, hfind]
  · rw [hrid, hwcid]
  · intro c hc
    rw [hwcid, hrcnt]
    by_cases hcin : c.id ∈ firstOcc votes
    · exact countVotes_le_maxCount votes c.id hcin
    · have h0 : countVotes c.id votes = 0 :=
        countVotes_eq_zero _ _
          (fun v hvv hee => hcin ((mem_firstOcc votes c.id).mpr ⟨v, hvv, hee⟩))
    
      omega

/-! ### Operation case analyses -/

theorem setSession_sessions (w : World) (sid : String) (s : Session) (k : String) :
    (setSession w sid s).sessions k = if k = sid then some s else w.sessions k := rfl

theorem setSession_participants (w : World) (sid : String) (s : Session) :
    (setSession w sid s).participants = w.participants := rfl

theorem setSession_votes (w : World) (sid : String) (s : Session) :
    (setSession w sid s).votes = w.votes := rfl

theorem sessions_joinSession (w : World) (user name sid : String) :
    (joinSession w user name sid).sessions = w.sessions := by
  unfold joinSession
  split <;> rfl

theorem sessions_submitPreference (w : World) (user sid text : String) :
    (submitPreference w user sid text).sessions = w.sessions := by
  unfold submitPreference
  split <;> rfl

theorem sessions_onVote (w : World) (user sid rid : String) :
    (onVote w user sid rid).2.sessions = w.sessions := by
  cases hfind : (votesOf w sid).find?
      (fun v => v.userId == user && v.restaurantId == rid) with
  | none => simp [onVote, hfind]
  | some v => simp [onVote, hfind]

theorem createSession_sessions (w : World) (user sid hostName location k : String) :
    (createSession w user sid hostName location).sessions k =
      if user = "" then w.sessions k
      else if k = sid then
        some
          { hostId := user, location := location, status := "open",
            candidates := [], winner := none }
      else w.sessions k := by
  unfold createSession
  split <;> rfl

theorem selectedCandidates_ne_nil (fetched : Option (List Candidate))
    (mockShuffled : List Candidate)
    (hperm : mockShuffled.Perm MOCK_RESTAURANTS) :
    selectedCandidates fetched mockShuffled ≠ [] := by
  have hlen : mockShuffled.length = 5 := by
    rw [hperm.length_eq]
    rfl
  have htake : mockShuffled.take 5 ≠ [] := by
    have hl5 : (mockShuffled.take 5).length = 5 := by
      simp [List.length_take, hlen]
    intro hnil
    rw [hnil] at hl5
    simp at hl5
  unfold selectedCandidates
  cases fetched with
  | none => exact htake
  | some l =>
    by_cases hl : l.isEmpty
    · simp [hl, htake]
    · simp only [hl, if_false]
      simpa [List.isEmpty_iff] using hl

theorem startVoting_eq (w : World) (user sid : String)
    (fetched : Option (List Candidate)) (mockShuffled : List Candidate) (w' : World)
    (h : startVoting w user sid fetched mockShuffled = some w') :
    ((user = "" ∨ sid = "") ∧ w' = w) ∨
    (¬(user = "" ∨ sid = "") ∧ ∃ s, w.sessions sid = some s ∧
      w' = setSession w sid
        { s with
          status := "voting",
          candidates := selectedCandidates fetched mockShuffled }) := by
  unfold startVoting at h
  split at h
  · exact Or.inl ⟨by assumption, (Option.some.inj h).symm⟩
  · rename_i hguard
    split at h
    · exact absurd h (by simp)
    · rename_i s hsess
      exact Or.inr ⟨hguard, s, hsess, (Option.some.inj h).symm⟩

theorem endVoting_eq (w : World) (user sid : String) (w' : World)
    (h : endVoting w user sid = some w') :
    w' = w ∨
    (∃ s win, w.sessions sid = some s ∧
      endVotingWinner s.candidates (votesOf w sid) = some win ∧
      w' = setSession w sid { s with status := "finished", winner := some win }) := by
  unfold endVoting at h
  split at h
  · exact Or.inl (Option.some.inj h).symm
  · split at h
    · exact Or.inl (Option.some.inj h).symm
    · rename_i s hsess
      split at h
      · exact absurd h (by simp)
      · rename_i win hwin
        exact Or.inr ⟨s, win, hsess, hwin, (Option.some.inj h).symm⟩

/-! ### The session invariant along reachable stores -/

/-- The data-model invariant of a single session record. -/
def SessionInv (s : Session) : Prop :=
  ((s.status = "voting" ∨ s.status = "finished") → s.candidates ≠ []) ∧
  (s.status = "finished" → ∃ wn, s.winner = some wn ∧ wn ∈ s.candidates)

/-- The data-model invariant over every stored session. -/
def WorldInv (w : World) : Prop :=
  ∀ sid s, w.sessions sid = some s → SessionInv s

theorem stepPreservesInv (w w' : World) (hw : WorldInv w) (hs : Step w w') :
    WorldInv w' := by
  cases hs with
  | create user sid hostName location =>
    intro sid' s' hs'
    rw [createSession_sessions] at hs'
    by_cases hu : user = ""
    · rw [if_pos hu] at hs'
      exact hw sid' s' hs'
    · rw [if_neg hu] at hs'
      by_cases hk : sid' = sid
      · rw [if_pos hk] at hs'
        cases Option.some.inj hs'
        constructor
        · rintro (h | h) <;> simp at h
        · intro h
          simp at h
      · rw [if_neg hk] at hs'
        exact hw sid' s' hs'
  | join user name sid =>
    intro sid' s' hs'
    rw [sessions_joinSession] at hs'
    exact hw sid' s' hs'
  | submitPref user sid text =>
    intro sid' s' hs'
    rw [sessions_submitPreference] at hs'
    exact hw sid' s' hs'
  | vote user sid rid =>
    intro sid' s' hs'
    rw [sessions_onVote] at hs'
    exact hw sid' s' hs'
  | startVote user sid fetched mockShuffled w' hperm h =>
    rcases startVoting_eq w user sid fetched mockShuffled w' h with
      ⟨_, rfl⟩ | ⟨_, s, hsess, rfl⟩
    · exact hw
    · intro sid' s' hs'
      rw [setSession_sessions] at hs'
      by_cases hk : sid' = sid
      · rw [if_pos hk] at hs'
        cases Option.some.inj hs'
        constructor
        · intro _
          exact selectedCandidates_ne_nil fetched mockShuffled hperm
        · intro hfin
          simp at hfin
      · rw [if_neg hk] at hs'
        exact hw sid' s' hs'
  | endVote user sid w' h =>
    rcases endVoting_eq w user sid w' h with rfl | ⟨s, win, hsess, hwin, rfl⟩
    · exact hw
    · intro sid' s' hs'
      rw [setSession_sessions] at hs'
      by_cases hk : sid' = sid
      · rw [if_pos hk] at hs'
        cases Option.some.inj hs'
        have hmem : win ∈ s.candidates :=
          endVotingWinner_mem s.candidates (votesOf w sid) win hwin
        constructor
        · intro _
          exact List.ne_nil_of_mem hmem
        · intro _
          exact ⟨win, rfl, hmem⟩
      · rw [if_neg hk] at hs'
        exact hw sid' s' hs'

theorem reachable_inv (w : World) (hw : Reachable w) : WorldInv w := by
  induction hw with
  | refl =>
    intro sid s hs
    exact absurd hs (by simp [initWorld])
  | tail _ hstep ih =>
    exact stepPreservesInv _ _ ih hstep

/-! ### Status monotonicity along phase-respecting operations -/

/-- The guarded-run invariant: every stored status is one of the three
lifecycle statuses, and a session still `open` has no candidates yet. -/
def WorldInvG (w : World) : Prop :=
  ∀ sid s, w.sessions sid = some s →
    (s.status = "open" ∨ s.status = "voting" ∨ s.status = "finished") ∧
    (s.status = "open" → s.candidates = [])

theorem stepGPreservesInvG (w w' : World) (hw : WorldInvG w) (hs : StepG w w') :
    WorldInvG w' := by
  cases hs with
  | create user sid hostName location hfresh =>
    intro sid' s' hs'
    rw [createSession_sessions] at hs'
    by_cases hu : user = ""
    · rw [if_pos hu] at hs'
      exact hw sid' s' hs'
    · rw [if_neg hu] at hs'
      by_cases hk : sid' = sid
      · rw [if_pos hk] at hs'
        cases Option.some.inj hs'
        exact ⟨Or.inl rfl, fun _ => rfl⟩
      · rw [if_neg hk] at hs'
        exact hw sid' s' hs'
  | join user name sid =>
    intro sid' s' hs'
    rw [sessions_joinSession] at hs'
    exact hw sid' s' hs'
  | submitPref user sid text =>
    intro sid' s' hs'
    rw [sessions_submitPreference] at hs'
    exact hw sid' s' hs'
  | vote user sid rid =>
    intro sid' s' hs'
    rw [sessions_onVote] at hs'
    exact hw sid' s' hs'
  | startVote user sid fetched mockShuffled w' s hperm hopen hst h =>
    rcases startVoting_eq w user sid fetched mockShuffled w' h with
      ⟨_, rfl⟩ | ⟨_, s₀, hsess, rfl⟩
    · exact hw
    · intro sid' s' hs'
      rw [setSession_sessions] at hs'
      by_cases hk : sid' = sid
      · rw [if_pos hk] at hs'
        cases Option.some.inj hs'
        refine ⟨Or.inr (Or.inl rfl), fun hopen' => ?_⟩
        simp at hopen'
      · rw [if_neg hk] at hs'
        exact hw sid' s' hs'
  | endVote user sid w' h =>
    rcases endVoting_eq w user sid w' h with rfl | ⟨s₀, win, hsess, hwin, rfl⟩
    · exact hw
    · intro sid' s' hs'
      rw [setSession_sessions] at hs'
      by_cases hk : sid' = sid
      · rw [if_pos hk] at hs'
        cases Option.some.inj hs'
        refine ⟨Or.inr (Or.inr rfl), fun hopen' => ?_⟩
        simp at hopen'
      · rw [if_neg hk] at hs'
        exact hw sid' s' hs'

theorem reachableG_invG (w : World) (hw : ReachableG w) : WorldInvG w := by
  induction hw with
  | refl =>
    intro sid s hs
    exact absurd hs (by simp [initWorld])
  | tail _ hstep ih =>
    exact stepGPreservesInvG _ _ ih hstep

theorem stepG_status_mono (w w' : World) (hw : WorldInvG w) (hs : StepG w w')
    (sid : String) (s s' : Session)
    (h1 : w.sessions sid = some s) (h2 : w'.sessions sid = some s') :
    statusRank s.status ≤ statusRank s'.status ∧
      ¬(s.status = "open" ∧ s'.status = "finished") := by
  cases hs with
  | create user sid₀ hostName location hfresh =>
    rw [createSession_sessions] at h2
    by_cases hu : user = ""
    · rw [if_pos hu] at h2
      rw [h1] at h2
      cases Option.some.inj h2
      exact ⟨le_refl _, fun hc => by rw [hc.1] at hc; simp at hc⟩
    · rw [if_neg hu] at h2
      by_cases hk : sid = sid₀
      · rw [hk] at h1
        rw [hfresh] at h1
        exact absurd h1 (by simp)
      · rw [if_neg hk] at h2
        rw [h1] at h2
        cases Option.some.inj h2
        exact ⟨le_refl _, fun hc => by rw [hc.1] at hc; simp at hc⟩
  | join user name sid₀ =>
    rw [sessions_joinSession, h1] at h2
    cases Option.some.inj h2
    exact ⟨le_refl _, fun hc => by rw [hc.1] at hc; simp at hc⟩
  | submitPref user sid₀ text =>
    rw [sessions_submitPreference, h1] at h2
    cases Option.some.inj h2
    exact ⟨le_refl _, fun hc => by rw [hc.1] at hc; simp at hc⟩
  | vote user sid₀ rid =>
    rw [sessions_onVote, h1] at h2
    cases Option.some.inj h2
    exact ⟨le_refl _, fun hc => by rw [hc.1] at hc; simp at hc⟩
  | startVote user sid₀ fetched mockShuffled w' s₀ hperm hopen hst h =>
    rcases startVoting_eq w user sid₀ fetched mockShuffled w' h with
      ⟨_, rfl⟩ | ⟨_, s₁, hsess, rfl⟩
    · rw [h1] at h2
      cases Option.some.inj h2
      exact ⟨le_refl _, fun hc => by rw [hc.1] at hc; simp at hc⟩
    · rw [setSession_sessions] at h2
      by_cases hk : sid = sid₀
      · rw [if_pos hk] at h2
        cases Option.some.inj h2
        have hss : s = s₀ := by
          rw [hk] at h1
          exact Option.some.inj (h1.symm.trans hopen)
        rw [hss, hst]
        constructor
        · simp [statusRank]
        · rintro ⟨-, hfin⟩
          simp at hfin
      · rw [if_neg hk] at h2
        rw [h1] at h2
        cases Option.some.inj h2
        exact ⟨le_refl _, fun hc => by rw [hc.1] at hc; simp at hc⟩
  | endVote user sid₀ w' h =>
    rcases endVoting_eq w user sid₀ w' h with rfl | ⟨s₁, win, hsess, hwin, rfl⟩
    · rw [h1] at h2
      cases Option.some.inj h2
      exact ⟨le_refl _, fun hc => by rw [hc.1] at hc; simp at hc⟩
    · rw [setSession_sessions] at h2
      by_cases hk : sid = sid₀
      · rw [if_pos hk] at h2
        cases Option.some.inj h2
        have hss : s = s₁ := by
          rw [hk] at h1
          exact Option.some.inj (h1.symm.trans hsess)
        have hsnotopen : s.status ≠ "open" := by
          intro hopen
          have hcand : s.candidates = [] := ((hw sid s h1).2) hopen
          have : endVotingWinner s.candidates (votesOf w sid₀) = none := by
            rw [hcand]
            exact endVotingWinner_nil _
          rw [← hss] at hwin
          rw [hwin] at this
          simp at this
        have hstat := (hw sid s h1).1
        constructor
        · rcases hstat with ho | hv | hf
          · exact absurd ho hsnotopen
          · rw [hss] at hv ⊢
            rw [hv]
            simp [statusRank]
          · rw [hss] at hf ⊢
            rw [hf]
        · rintro ⟨ho, -⟩
          exact hsnotopen ho
      · rw [if_neg hk] at h2
        rw [h1] at h2
        cases Option.some.inj h2
        exact ⟨le_refl _, fun hc => by rw [hc.1] at hc; simp at hc⟩

/-! ### Session-id generator -/

theorem upperDigit_ok (d : Fin 36) :
    isUpperAlnum (jsToUpperChar (digitChar d)) = true := by
  revert d
  decide

theorem generateSessionId_shape (ds : List (Fin 36)) :
    (generateSessionId ds).length ≤ 6 ∧
    (∀ c ∈ generateSessionId ds, isUpperAlnum c = true) ∧
    (6 ≤ (trimTrailingZeros ds).length → (generateSessionId ds).length = 6) := by
  by_cases ht : (trimTrailingZeros ds).isEmpty
  · have hempty : generateSessionId ds = [] := by
      simp [generateSessionId, randomToStringBase36, ht]
    rw [hempty]
    refine ⟨by simp, by simp, fun h6 => ?_⟩
    rw [List.isEmpty_iff] at ht
    rw [ht] at h6
    simp at h6
  · have hform : generateSessionId ds =
        (((trimTrailingZeros ds).map digitChar).take 6).map jsToUpperChar := by
      simp [generateSessionId, randomToStringBase36, ht]
    rw [hform]
    refine ⟨?_, ?_, ?_⟩
    · simp [List.length_take]
    · intro c hc
      obtain ⟨c', hc', rfl⟩ := List.mem_map.mp hc
      obtain ⟨d, _, rfl⟩ := List.mem_map.mp (List.mem_of_mem_take hc')
      exact upperDigit_ok d
    · intro h6
      simp only [List.length_map, List.length_take]
      omega

/-! ### Claim C1 -/

/-- Claim C1: for a session in status `voting` with a non-empty candidate
list and a non-empty vote list (all votes referring to candidates, whose ids
are non-empty strings), the `endVoting` resolution returns a stored candidate
whose id is exactly the one described by the resolution rule: the first id,
in the iteration order of the tally mapping (order in which distinct
candidates first received any vote), to attain the maximum count — in
particular a candidate with the strictly highest count wins — and the
computation is deterministic: run twice on identical input it yields the
same winner. -/
theorem c1_resolve_highest_count_tiebreak (sess : Session) (votes : List VoteRec)
    (hst : sess.status = "voting") (hcands : sess.candidates ≠ []) (hv : votes ≠ [])
    (hmem : ∀ v ∈ votes, ∃ c ∈ sess.candidates, c.id = v.restaurantId)
    (hne : ∀ v ∈ votes, v.restaurantId ≠ "") :
    ∃ w, endVotingWinner sess.candidates votes = some w ∧ w ∈ sess.candidates ∧
      resolveSpecWinnerId votes = some w.id ∧
      (∀ c ∈ sess.candidates, countVotes c.id votes ≤ countVotes w.id votes) ∧
      (∀ w1 w2, endVotingWinner sess.candidates votes = some w1 →
        endVotingWinner sess.candidates votes = some w2 → w1 = w2) := by
  obtain ⟨w, h1, h2, h3, h4⟩ := endVotingWinner_spec sess.candidates votes hv hmem hne
  refine ⟨w, h1, h2, h3, h4, fun w1 w2 ha hb => ?_⟩
  rw [ha] at hb
  exact Option.some.inj hb

/-- A concrete voting session used to instantiate C1. -/
def c1Session : Session :=
  { hostId := "host1", location := "Atlanta, GA", status := "voting",
    candidates := [⟨"a", "A"⟩, ⟨"b", "B"⟩], winner := none }

/-- Concrete votes used to instantiate C1: `b` gets 2 votes, `a` gets 1. -/
def c1Votes : List VoteRec :=
  [⟨"S", "u1", "b"⟩, ⟨"S", "u2", "b"⟩, ⟨"S", "u3", "a"⟩]

/-- Witness for C1 at a concrete session and vote list. -/
theorem c1_resolve_highest_count_tiebreak_witness :
    ∃ w, endVotingWinner c1Session.candidates c1Votes = some w ∧
      w ∈ c1Session.candidates ∧
      resolveSpecWinnerId c1Votes = some w.id ∧
      (∀ c ∈ c1Session.candidates, countVotes c.id c1Votes ≤ countVotes w.id c1Votes) ∧
      (∀ w1 w2, endVotingWinner c1Session.candidates c1Votes = some w1 →
        endVotingWinner c1Session.candidates c1Votes = some w2 → w1 = w2) :=
  c1_resolve_highest_count_tiebreak c1Session c1Votes rfl (by decide) (by decide)
    (by decide) (by decide)

/-! ### Claim C2 -/

/-- Claim C2: for a session in status `voting` with a non-empty candidate
list, `endVoting`'s resolution with an empty vote list returns exactly the
first candidate in the session's stored candidate order. -/
theorem c2_resolve_empty_votes_first_candidate (sess : Session)
    (hst : sess.status = "voting") (hcands : sess.candidates ≠ []) :
    ∃ c0, sess.candidates.head? = some c0 ∧
      endVotingWinner sess.candidates [] = some c0 := by
  obtain ⟨c0, rest, hc⟩ := List.exists_cons_of_ne_nil hcands
  rw [hc]
  exact ⟨c0, rfl, endVotingWinner_empty_votes c0 rest⟩

/-- A concrete voting session used to instantiate C2. -/
def c2Session : Session :=
  { hostId := "host2", location := "Atlanta, GA", status := "voting",
    candidates := [⟨"r1", "First"⟩, ⟨"r2", "Second"⟩], winner := none }

/-- Witness for C2 at a concrete session. -/
theorem c2_resolve_empty_votes_first_candidate_witness :
    ∃ c0, c2Session.candidates.head? = some c0 ∧
      endVotingWinner c2Session.candidates [] = some c0 :=
  c2_resolve_empty_votes_first_candidate c2Session rfl (by decide)

/-! ### Claim C5 -/

/-- Claim C5: in every store reachable by engine operations, every stored
session has a non-empty candidate list whenever its status is `voting` or
`finished`, and whenever its status is `finished` its stored winner is an
element of its candidate list. -/
theorem c5_session_invariant (w : World) (hw : Reachable w) (sid : String)
    (s : Session) (hs : w.sessions sid = some s) :
    ((s.status = "voting" ∨ s.status = "finished") → s.candidates ≠ []) ∧
    (s.status = "finished" → ∃ wn, s.winner = some wn ∧ wn ∈ s.candidates) :=
  reachable_inv w hw sid s hs

/-- First step of the C5 witness run: a session is created. -/
def c5World1 : World := createSession initWorld "hostU" "SESSID" "Alex" "Atlanta, GA"

/-- Second step of the C5 witness run: voting starts with one Yelp result. -/
def c5World2 : World :=
  (startVoting c5World1 "hostU" "SESSID" (some [⟨"y1", "Yelp One"⟩])
    MOCK_RESTAURANTS).getD initWorld

/-- The session record stored in `c5World2`. -/
def c5StoredSession : Session :=
  { hostId := "hostU", location := "Atlanta, GA", status := "voting",
    candidates := [⟨"y1", "Yelp One"⟩], winner := none }

/-- Witness for C5 at a concrete reachable store. -/
theorem c5_session_invariant_witness :
    ((c5StoredSession.status = "voting" ∨ c5StoredSession.status = "finished") →
      c5StoredSession.candidates ≠ []) ∧
    (c5StoredSession.status = "finished" →
      ∃ wn, c5StoredSession.winner = some wn ∧ wn ∈ c5StoredSession.candidates) := by
  refine c5_session_invariant c5World2 ?_ "SESSID" c5StoredSession rfl
  exact Relation.ReflTransGen.tail
    (Relation.ReflTransGen.single
      (Step.create initWorld "hostU" "SESSID" "Alex" "Atlanta, GA"))
    (Step.startVote c5World1 "hostU" "SESSID" (some [⟨"y1", "Yelp One"⟩])
      MOCK_RESTAURANTS c5World2 (List.Perm.refl _) rfl)

/-! ### Claim C3 -/

/-- Step 1 of the C3 counterexample run: a session `SX` is created. -/
def c3xW1 : World := createSession initWorld "H" "SX" "Alex" "Atlanta"

/-- Step 2: voting starts on `SX` with one candidate. -/
def c3xW2 : World :=
  (startVoting c3xW1 "H" "SX" (some [⟨"c1", "Cand"⟩]) MOCK_RESTAURANTS).getD initWorld

/-- Step 3: voting ends; `SX` is now `finished`. -/
def c3xW3 : World := (endVoting c3xW2 "H" "SX").getD initWorld

/-- Step 4: `startVoting` is applied again to the finished session. -/
def c3xW4 : World :=
  (startVoting c3xW3 "H" "SX" (some [⟨"c1", "Cand"⟩]) MOCK_RESTAURANTS).getD initWorld

/-- Counterexample to C3 as stated: from a reachable store whose session is
`finished`, applying the `startVoting` operation sets the status back to
`voting` — an operation can set the status to an earlier phase. -/
theorem c3_status_backward_counterexample :
    Reachable c3xW3 ∧ Step c3xW3 c3xW4 ∧
    (c3xW3.sessions "SX").map Session.status = some "finished" ∧
    (c3xW4.sessions "SX").map Session.status = some "voting" ∧
    statusRank "voting" < statusRank "finished" := by
  refine ⟨?_, ?_, rfl, rfl, by decide⟩
  · exact Relation.ReflTransGen.tail
      (Relation.ReflTransGen.tail
        (Relation.ReflTransGen.single
          (Step.create initWorld "H" "SX" "Alex" "Atlanta"))
        (Step.startVote c3xW1 "H" "SX" (some [⟨"c1", "Cand"⟩]) MOCK_RESTAURANTS
          c3xW2 (List.Perm.refl _) rfl))
      (Step.endVote c3xW2 "H" "SX" c3xW3 rfl)
  · exact Step.startVote c3xW3 "H" "SX" (some [⟨"c1", "Cand"⟩]) MOCK_RESTAURANTS
      c3xW4 (List.Perm.refl _) rfl

/-- Claim C3 (amended): along runs in which `createSession` is only given
fresh ids and `startVoting` is only applied to sessions still in status
`open`, every operation moves every stored session's status forward —
`statusRank` never decreases — and no single operation jumps a session from
`open` straight to `finished` (voting is not skipped).  Without those phase
guards the property fails (see the counterexample): `startVoting` applied to
a finished session unconditionally resets the status to `voting`. -/
theorem c3_status_monotone_guarded (w w' : World) (hw : ReachableG w)
    (hs : StepG w w') (sid : String) (s s' : Session)
    (h1 : w.sessions sid = some s) (h2 : w'.sessions sid = some s') :
    statusRank s.status ≤ statusRank s'.status ∧
      ¬(s.status = "open" ∧ s'.status = "finished") :=
  stepG_status_mono w w' (reachableG_invG w hw) hs sid s s' h1 h2

/-- First step of the C3 witness run. -/
def c3gW1 : World := createSession initWorld "hostG" "SG" "Ann" "Decatur"

/-- Second step of the C3 witness run: a guarded `startVoting`. -/
def c3gW2 : World :=
  (startVoting c3gW1 "hostG" "SG" (some [⟨"g1", "GCand"⟩]) MOCK_RESTAURANTS).getD initWorld

/-- The open session stored in `c3gW1`. -/
def c3gOpenSession : Session :=
  { hostId := "hostG", location := "Decatur", status := "open",
    candidates := [], winner := none }

/-- The voting session stored in `c3gW2`. -/
def c3gVotingSession : Session :=
  { hostId := "hostG", location := "Decatur", status := "voting",
    candidates := [⟨"g1", "GCand"⟩], winner := none }

/-- Witness for the amended C3 on a concrete guarded step. -/
theorem c3_status_monotone_guarded_witness :
    statusRank c3gOpenSession.status ≤ statusRank c3gVotingSession.status ∧
      ¬(c3gOpenSession.status = "open" ∧ c3gVotingSession.status = "finished") := by
  refine c3_status_monotone_guarded c3gW1 c3gW2 ?_ ?_ "SG"
    c3gOpenSession c3gVotingSession rfl rfl
  · exact Relation.ReflTransGen.single
      (StepG.create initWorld "hostG" "SG" "Ann" "Decatur" rfl)
  · exact StepG.startVote c3gW1 "hostG" "SG" (some [⟨"g1", "GCand"⟩])
      MOCK_RESTAURANTS c3gW2 c3gOpenSession (List.Perm.refl _) rfl rfl rfl

/-! ### Claim C4 -/

/-- A store with one open session `S4` hosted by `bob`. -/
def c4World : World :=
  { sessions := fun k =>
      if k = "S4" then some ⟨"bob", "Atlanta", "open", [], none⟩ else none,
    participants := [], votes := [] }

/-- Counterexample to C4 as stated: `alice` is not the host of `S4`, yet
`startVoting` invoked by `alice` succeeds (no `NotHost` failure exists in the
code) and changes the session's status from `open` to `voting`. -/
theorem c4_nonhost_start_counterexample :
    ("alice" : String) ≠ "bob" ∧
    (c4World.sessions "S4").map Session.status = some "open" ∧
    ((startVoting c4World "alice" "S4" (some [⟨"c4a", "X"⟩]) MOCK_RESTAURANTS).map
      (fun w' => (w'.sessions "S4").map Session.status)) = some (some "voting") := by
  exact ⟨by decide, rfl, rfl⟩

/-- Claim C4 (amended): `startVoting` performs no host check — invoked by any
signed-in user, in particular one different from the session's `hostId`, on
an existing session it succeeds and rewrites the record to status `voting`
with the selected candidates; the host-only restriction exists solely in the
UI, which renders the start control only for the host. -/
theorem c4_start_voting_no_host_check (w : World) (user sid : String)
    (fetched : Option (List Candidate)) (mockShuffled : List Candidate)
    (sess : Session) (hu : user ≠ "") (hsid : sid ≠ "")
    (hsess : w.sessions sid = some sess) (hnothost : user ≠ sess.hostId) :
    ∃ w', startVoting w user sid fetched mockShuffled = some w' ∧
      w'.sessions sid = some
        { sess with
          status := "voting",
          candidates := selectedCandidates fetched mockShuffled } := by
  unfold startVoting
  rw [if_neg (not_or.mpr ⟨hu, hsid⟩), hsess]
  refine ⟨_, rfl, ?_⟩
  rw [setSession_sessions, if_pos rfl]

/-- Witness for the amended C4 at a concrete store and non-host caller. -/
theorem c4_start_voting_no_host_check_witness :
    ∃ w', startVoting c4World "alice" "S4" (some [⟨"c4a", "X"⟩]) MOCK_RESTAURANTS
        = some w' ∧
      w'.sessions "S4" = some ⟨"bob", "Atlanta", "voting", [⟨"c4a", "X"⟩], none⟩ :=
  c4_start_voting_no_host_check c4World "alice" "S4" (some [⟨"c4a", "X"⟩])
    MOCK_RESTAURANTS ⟨"bob", "Atlanta", "open", [], none⟩
    (by decide) (by decide) rfl (by decide)

/-! ### Claim C7 -/

/-- A store whose session `S7` is already in status `voting`, with a stored
participant preference `"pizza"`. -/
def c7World : World :=
  { sessions := fun k =>
      if k = "S7" then some ⟨"h7", "Atlanta", "voting", [⟨"r1", "A"⟩], none⟩ else none,
    participants := [("S7_u7", ⟨"S7", "u7", "Ann", "pizza", false⟩)],
    votes := [] }

/-- Counterexample to C7 as stated: the session is not `open`, yet
`submitPreference` does not fail — it overwrites the stored preference
`"pizza"` with `"sushi"`. -/
theorem c7_submit_pref_counterexample :
    (c7World.sessions "S7").map Session.status = some "voting" ∧
    (storeGet c7World.participants "S7_u7").map Participant.preference
      = some "pizza" ∧
    (storeGet (submitPreference c7World "u7" "S7" "sushi").participants
      "S7_u7").map Participant.preference = some "sushi" := by
  exact ⟨rfl, rfl, rfl⟩

/-- Claim C7 (amended): `submitPreference` performs no session-status check
and never fails: whatever the session's status — in particular when it is
not `open` — it overwrites the participant's stored preference with the
submitted text; the phase gating exists only in the UI, which shows the
preference form only in the lobby. -/
theorem c7_submit_pref_no_phase_check (w : World) (user sid text : String)
    (sess : Session) (hu : user ≠ "") (hsid : sid ≠ "")
    (hsess : w.sessions sid = some sess) (hst : sess.status ≠ "open") :
    ∃ p, storeGet (submitPreference w user sid text).participants
        (participantDocId sid user) = some p ∧ p.preference = text := by
  unfold submitPreference
  rw [if_neg (not_or.mpr ⟨hu, hsid⟩)]
  exact ⟨_, storeGet_set_self _ _ _, rfl⟩

/-- Witness for the amended C7 at a concrete store in status `voting`. -/
theorem c7_submit_pref_no_phase_check_witness :
    ∃ p, storeGet (submitPreference c7World "u7" "S7" "sushi").participants
        (participantDocId "S7" "u7") = some p ∧ p.preference = "sushi" :=
  c7_submit_pref_no_phase_check c7World "u7" "S7" "sushi"
    ⟨"h7", "Atlanta", "voting", [⟨"r1", "A"⟩], none⟩
    (by decide) (by decide) rfl (by decide)

/-! ### Claim C8 -/

/-- A store holding the participant record `(S8, u8)` with a submitted
preference and the host flag set. -/
def c8World : World :=
  { sessions := fun _ => none,
    participants := [("S8_u8", ⟨"S8", "u8", "Ann", "pizza", true⟩)],
    votes := [] }

/-- Counterexample to C8 as stated: re-joining with the same name is not a
no-op — the `setDoc` overwrite resets `preference` to `""` and `isHost` to
`false`, so the stored record changes. -/
theorem c8_rejoin_counterexample :
    storeGet c8World.participants "S8_u8"
      = some ⟨"S8", "u8", "Ann", "pizza", true⟩ ∧
    storeGet (joinSession c8World "u8" "Ann" "S8").participants "S8_u8"
      = some ⟨"S8", "u8", "Ann", "", false⟩ ∧
    (⟨"S8", "u8", "Ann", "", false⟩ : Participant)
      ≠ ⟨"S8", "u8", "Ann", "pizza", true⟩ := by
  exact ⟨rfl, rfl, by decide⟩

/-- Claim C8 (amended): re-joining with an already-used `(sessionId, userId)`
pair and the same name never fails (no `AlreadyJoined` error exists), but it
is not a no-op: the plain `setDoc` rewrites the record, keeping the name
while resetting `preference` to the empty string and `isHost` to `false`. -/
theorem c8_rejoin_overwrites (w : World) (user name sid : String)
    (rec : Participant) (hu : user ≠ "")
    (hrec : storeGet w.participants (participantDocId sid user) = some rec)
    (hname : rec.name = name) :
    storeGet (joinSession w user name sid).participants (participantDocId sid user)
      = some ⟨sid, user, name, "", false⟩ := by
  unfold joinSession
  rw [if_neg hu]
  exact storeGet_set_self _ _ _

/-- Witness for the amended C8 at a concrete store. -/
theorem c8_rejoin_overwrites_witness :
    storeGet (joinSession c8World "u8" "Ann" "S8").participants
        (participantDocId "S8" "u8")
      = some ⟨"S8", "u8", "Ann", "", false⟩ :=
  c8_rejoin_overwrites c8World "u8" "Ann" "S8" ⟨"S8", "u8", "Ann", "pizza", true⟩
    (by decide) rfl rfl

/-! ### Claim C6 -/

/-- A voting-session store that already holds the vote `(S6, u6, c6)`. -/
def c6xWorld : World :=
  { sessions := fun k =>
      if k = "S6" then some ⟨"h6", "Atlanta", "voting", [⟨"c6", "C"⟩], none⟩ else none,
    participants := [],
    votes := [("S6_u6_c6", ⟨"S6", "u6", "c6"⟩)] }

/-- Counterexample to C6 as stated: in a voting session that already holds a
vote for the key, the first of two successive toggles returns `"removed"`
(not `"added"`), and after the two toggles the ledger again holds a record
for the key — so as a statement over every state the claim fails; it needs
the precondition that no vote for the key exists beforehand. -/
theorem c6_toggle_counterexample :
    (c6xWorld.sessions "S6").map Session.status = some "voting" ∧
    (onVote c6xWorld "u6" "S6" "c6").1 = "removed" ∧
    (onVote c6xWorld "u6" "S6" "c6").1 ≠ "added" ∧
    (onVote (onVote c6xWorld "u6" "S6" "c6").2 "u6" "S6" "c6").1 = "added" ∧
    storeGet (onVote (onVote c6xWorld "u6" "S6" "c6").2 "u6" "S6" "c6").2.votes
      "S6_u6_c6" = some ⟨"S6", "u6", "c6"⟩ := by
  exact ⟨rfl, by decide, by decide, by decide, by decide⟩

/-- Claim C6 (amended): starting from a store whose vote list holds no vote
by `user` for `rid` in session `sid` and no document at the id
`sid_user_rid` (the two conditions coincide unless ids contain underscores),
two successive `onVote` toggles by that user on that candidate of a voting
session perform `"added"` then `"removed"`, and the vote collection
afterwards equals the collection before the first toggle. -/
theorem c6_toggle_inverse (w : World) (user sid rid : String) (sess : Session)
    (hsess : w.sessions sid = some sess) (hst : sess.status = "voting")
    (hnov : ∀ v ∈ votesOf w sid, ¬(v.userId = user ∧ v.restaurantId = rid))
    (hkey : storeGet w.votes (voteDocId sid user rid) = none) :
    (onVote w user sid rid).1 = "added" ∧
    (onVote (onVote w user sid rid).2 user sid rid).1 = "removed" ∧
    (onVote (onVote w user sid rid).2 user sid rid).2.votes = w.votes := by
  have hfind1 : (votesOf w sid).find?
      (fun v => v.userId == user && v.restaurantId == rid) = none := by
    rw [List.find?_eq_none]
    intro v hv
    simp only [Bool.and_eq_true, beq_iff_eq]
    exact hnov v hv
  have hcall1 : onVote w user sid rid = ("added", voteWrite w user sid rid) := by
    simp only [onVote, hfind1, voteWrite]
  have hsetv : (voteWrite w user sid rid).votes
      = w.votes ++ [(voteDocId sid user rid, ⟨sid, user, rid⟩)] :=
    storeSet_of_get_none _ _ _ hkey
  rw [hcall1]
  have hvotesOf1 : votesOf (voteWrite w user sid rid) sid
      = votesOf w sid ++ [⟨sid, user, rid⟩] := by
    unfold votesOf
    rw [hsetv, List.filter_append]
    simp
  obtain ⟨vf, hvf⟩ : ∃ vf, (votesOf (voteWrite w user sid rid) sid).find?
      (fun v => v.userId == user && v.restaurantId == rid) = some vf := by
    apply Option.isSome_iff_exists.mp
    apply List.find?_isSome.mpr
    refine ⟨⟨sid, user, rid⟩, ?_, by simp⟩
    rw [hvotesOf1]
    exact List.mem_append_right _ (by simp)
  refine ⟨rfl, ?_, ?_⟩
  · simp only [onVote, hvf]
  · simp only [onVote, hvf]
    rw [hsetv]
    exact storeDelete_append_self_of_get_none _ _ _ hkey

/-- A voting-session store with no votes yet, for the C6 witness. -/
def c6wWorld : World :=
  { sessions := fun k =>
      if k = "S6" then some ⟨"h6", "Atlanta", "voting", [⟨"c6", "C"⟩], none⟩ else none,
    participants := [], votes := [] }

/-- Witness for the amended C6 at a concrete store with no prior vote. -/
theorem c6_toggle_inverse_witness :
    (onVote c6wWorld "u6" "S6" "c6").1 = "added" ∧
    (onVote (onVote c6wWorld "u6" "S6" "c6").2 "u6" "S6" "c6").1 = "removed" ∧
    (onVote (onVote c6wWorld "u6" "S6" "c6").2 "u6" "S6" "c6").2.votes
      = c6wWorld.votes :=
  c6_toggle_inverse c6wWorld "u6" "S6" "c6"
    ⟨"h6", "Atlanta", "voting", [⟨"c6", "C"⟩], none⟩ rfl rfl (by decide) rfl

/-! ### Claim C9 -/

/-- Counterexample to C9 as stated: for `Math.random() = 0.5`, whose base-36
expansion is the single digit 18 (the string `"0.i"`), the generated id is
`"I"` — one character, not six. -/
theorem c9_session_id_counterexample :
    generateSessionId [(18 : Fin 36)] = ['I'] ∧
    (generateSessionId [(18 : Fin 36)]).length ≠ 6 := by
  exact ⟨by decide, by decide⟩

/-- Claim C9 (amended): a generated session id has at most 6 characters,
each an uppercase alphanumeric (a digit or `A`–`Z`), and has exactly 6
characters whenever the printed base-36 expansion of the random fraction
carries at least 6 digits — which fails only for fractions with very short
expansions, such as 0.5. -/
theorem c9_session_id_shape (ds : List (Fin 36)) :
    (generateSessionId ds).length ≤ 6 ∧
    (∀ c ∈ generateSessionId ds, isUpperAlnum c = true) ∧
    (6 ≤ (trimTrailingZeros ds).length → (generateSessionId ds).length = 6) :=
  generateSessionId_shape ds

/-- A digit list with at least six digits and no trailing zero. -/
def c9Digits : List (Fin 36) := [10, 11, 12, 13, 14, 15, 16, 17]

/-- Witness for the amended C9: an eight-digit expansion yields a six
character id, and the shape facts hold at that input. -/
theorem c9_session_id_shape_witness :
    (generateSessionId c9Digits).length ≤ 6 ∧
    (∀ c ∈ generateSessionId c9Digits, isUpperAlnum c = true) ∧
    (generateSessionId c9Digits).length = 6 := by
  obtain ⟨h1, h2, h3⟩ := c9_session_id_shape c9Digits
  exact ⟨h1, h2, h3 (by decide)⟩

/-! ### Claim C10 -/

/-- A voting-session store holding the vote record keyed `(S, a_b, c)`,
stored — as the code stores it — at document id `"S_a_b_c"`. -/
def c10World : World :=
  { sessions := fun k =>
      if k = "S" then some ⟨"h", "Atlanta", "voting", [⟨"b_c", "B"⟩], none⟩ else none,
    participants := [],
    votes := [("S_a_b_c", ⟨"S", "a_b", "c"⟩)] }

/-- Counterexample to C10 as stated: a toggle by user `a` on candidate `b_c`
in session `S` computes document id `"S_a_b_c"`, the same string the distinct
key `(S, a_b, c)` encodes to; the `setDoc` of the toggle therefore destroys
that other key's record. -/
theorem c10_vote_frame_counterexample :
    (("S", "a_b", "c") : String × String × String) ≠ ("S", "a", "b_c") ∧
    (⟨"S", "a_b", "c"⟩ : VoteRec) ∈ c10World.votes.map Prod.snd ∧
    (onVote c10World "a" "S" "b_c").1 = "added" ∧
    ¬((⟨"S", "a_b", "c"⟩ : VoteRec)
        ∈ (onVote c10World "a" "S" "b_c").2.votes.map Prod.snd) := by
  exact ⟨by decide, by decide, by decide, by decide⟩

/-- Claim C10 (amended): a toggle by `user` on `rid` in session `sid` only
creates, overwrites or deletes the document stored at id
`sid + "_" + user + "_" + rid`; every vote document at any other id is left
unchanged.  Since distinct `(session, user, candidate)` keys encode to
distinct ids whenever the ids contain no underscore, the original claim
holds for such ids. -/
theorem c10_vote_frame (w : World) (user sid rid k : String)
    (hk : k ≠ voteDocId sid user rid) :
    storeGet (onVote w user sid rid).2.votes k = storeGet w.votes k := by
  cases hfind : (votesOf w sid).find?
      (fun v => v.userId == user && v.restaurantId == rid) with
  | some v =>
    simp only [onVote, hfind]
    exact storeGet_delete_ne _ _ _ hk
  | none =>
    simp only [onVote, hfind]
    exact storeGet_set_ne _ _ _ _ hk

/-- A store holding an unrelated vote record, for the C10 witness. -/
def c10wWorld : World :=
  { sessions := fun _ => none, participants := [],
    votes := [("T_x_y", ⟨"T", "x", "y"⟩)] }

/-- Witness for the amended C10: toggling `(T, u, z)` leaves the record at
the unrelated document id `"T_x_y"` unchanged. -/
theorem c10_vote_frame_witness :
    storeGet (onVote c10wWorld "u" "T" "z").2.votes "T_x_y"
      = storeGet c10wWorld.votes "T_x_y" :=
  c10_vote_frame c10wWorld "u" "T" "z" "T_x_y" (by decide)
